import Mathlib

/-!
Verification of the zig-mdx MDX-to-JSON parser against its specification.

The repository ships only the foreign-call header `src/third_party/zig-mdx/src/zigmdx.h`,
which fixes the status enumeration (`zigmdx_status`: OK = 0, PARSE_ERROR = 1,
INVALID_UTF8 = 2, ALLOC_ERROR = 3, INTERNAL_ERROR = 4) and the entry point
`zigmdx_parse_json(input) -> (status, output buffer)`. The parser body itself is
not in the repository, so the pipeline below (UTF-8 validation, line-oriented
block parsing, inline parsing, JSON serialization) is modelled from the
specification's component contracts. Inputs and outputs are byte sequences,
modelled as `List Nat`; every function is executable and kernel-reducible
(recursion is structural, with explicit fuel where the recursion pattern is
not structural; the fuel passed at each call site provably dominates the
recursion depth, so the fuel-exhaustion branches are unreachable and are
mapped to the internal-error status).
-/

/-- Bytes of an ASCII string literal, used to write concrete test inputs. -/
def strBytes (s : String) : List Nat := s.toList.map Char.toNat

/-- Modelled from the spec: the status enumeration of `zigmdx.h` (`zigmdx_status`),
the five statuses a parse call can return. -/
inductive Status where
  | ok
  | parseError
  | invalidUtf8
  | allocError
  | internalError
deriving DecidableEq

/-- Modelled from the spec: the numeric wire encoding of `zigmdx_status`
fixed by the header: OK = 0, PARSE_ERROR = 1, INVALID_UTF8 = 2,
ALLOC_ERROR = 3, INTERNAL_ERROR = 4 (the `int32_t` returned by
`zigmdx_parse_json`). -/
def Status.code : Status → Int
  | .ok => 0
  | .parseError => 1
  | .invalidUtf8 => 2
  | .allocError => 3
  | .internalError => 4

/-- Modelled from the spec: the internal parse-error taxonomy (unterminated
expression, unterminated code block, unbalanced component); `internal` marks
an invariant violation inside the pipeline (surfaced as INTERNAL_ERROR).
The implementation behind `zigmdx_parse_json` is missing from the repository,
so the kinds come from the spec's error-handling design. -/
inductive PErr where
  | unterminatedExpression
  | unterminatedCodeBlock
  | unbalancedComponent
  | internal
deriving DecidableEq

/-- Modelled from the spec: the inline-node variants of the AST
(Text, Emphasis(strength, children), Link(target, children), InlineCode,
InlineExpression); the parser body is missing from the repository. -/
inductive Inline where
  | text (s : List Nat)
  | emphasis (strength : Nat) (children : List Inline)
  | link (target : List Nat) (children : List Inline)
  | inlineCode (s : List Nat)
  | inlineExpression (s : List Nat)

/-- Modelled from the spec: the block-node variants of the AST
(Heading, Paragraph, List, CodeBlock, ExpressionBlock, ComponentBlock,
ThematicBreak); the parser body is missing from the repository.
Attributes of a component block are kept as their raw byte text. -/
inductive Block where
  | heading (level : Nat) (children : List Inline)
  | paragraph (children : List Inline)
  | list (ordered : Bool) (items : List Block)
  | codeBlock (language : List Nat) (body : List Nat)
  | expressionBlock (s : List Nat)
  | componentBlock (name : List Nat) (attrs : List Nat) (children : List Block)
  | thematicBreak

/-- A continuation byte of a UTF-8 sequence: 0x80..0xBF. -/
def isCont (b : Nat) : Bool := 128 ≤ b && b < 192

/-- The first `n` bytes exist and are continuation bytes. -/
def contPrefix (l : List Nat) (n : Nat) : Bool :=
  decide (n ≤ l.length) && (l.take n).all isCont

/-- Second-byte range restriction for 3-byte sequences: rules out overlong
encodings (lead 0xE0 needs second byte ≥ 0xA0) and encoded surrogates
(lead 0xED needs second byte < 0xA0). -/
def extra3 (b : Nat) (rest : List Nat) : Bool :=
  (decide (b ≠ 224) || decide (160 ≤ rest.headD 0)) &&
    (decide (b ≠ 237) || decide (rest.headD 0 < 160))

/-- Second-byte range restriction for 4-byte sequences: rules out overlong
encodings (lead 0xF0 needs second byte ≥ 0x90) and code points beyond
U+10FFFF (lead 0xF4 needs second byte < 0x90). -/
def extra4 (b : Nat) (rest : List Nat) : Bool :=
  (decide (b ≠ 240) || decide (144 ≤ rest.headD 0)) &&
    (decide (b ≠ 244) || decide (rest.headD 0 < 144))

/-- Modelled from the spec: the UTF-8 validator that runs once before any
tokenization; rejects overlong encodings (lead bytes 0xC0/0xC1 and the
restricted second-byte ranges), unexpected continuation bytes, truncated
sequences, encoded surrogates, and code points beyond U+10FFFF. The
validator body is missing from the repository. Fuel-structural; the fuel
passed by `validUtf8` dominates the recursion depth. -/
def validUtf8F : Nat → List Nat → Bool
  | 0, _ => false
  | _ + 1, [] => true
  | fuel + 1, b :: rest =>
    if b < 128 then validUtf8F fuel rest
    else if b < 194 then false
    else if b < 224 then contPrefix rest 1 && validUtf8F fuel (rest.drop 1)
    else if b < 240 then contPrefix rest 2 && extra3 b rest && validUtf8F fuel (rest.drop 2)
    else if b < 245 then contPrefix rest 3 && extra4 b rest && validUtf8F fuel (rest.drop 3)
    else false

/-- Modelled from the spec: UTF-8 well-formedness of the raw input bytes. -/
def validUtf8 (l : List Nat) : Bool := validUtf8F (l.length + 1) l

/-- Count the leading occurrences of byte `b`. -/
def countLeading (b : Nat) : List Nat → Nat
  | [] => 0
  | c :: rest => if c = b then countLeading b rest + 1 else 0

/-- Split at the first occurrence of byte `b` (the occurrence is consumed):
`some (prefixPart, rest)` when `b` occurs, `none` otherwise. -/
def splitAtByte (b : Nat) : List Nat → Option (List Nat × List Nat)
  | [] => none
  | c :: rest =>
    if c = b then some ([], rest)
    else (splitAtByte b rest).map (fun p => (c :: p.1, p.2))

/-- Split the input into lines at newline bytes (a trailing newline yields a
final empty line, as with a split on the separator). -/
def splitLines : List Nat → List (List Nat)
  | [] => [[]]
  | b :: rest =>
    if b = 10 then [] :: splitLines rest
    else
      match splitLines rest with
      | [] => [[b]]
      | l :: ls => (b :: l) :: ls

/-- Join lines with newline bytes (inverse of `splitLines` on newline-free lines). -/
def joinLines : List (List Nat) → List Nat
  | [] => []
  | [l] => l
  | l :: ls => l ++ 10 :: joinLines ls

section BasicLemmas

theorem validUtf8F_ascii : ∀ fuel l, l.length < fuel →
    l.all (fun b => decide (b < 128)) = true → validUtf8F fuel l = true := by
  intro fuel
  induction fuel with
  | zero => intro l hl; omega
  | succ fuel ih =>
    intro l hl h
    cases l with
    | nil => rfl
    | cons b rest =>
      simp only [List.all_cons, Bool.and_eq_true, decide_eq_true_eq] at h
      simp only [validUtf8F]
      rw [if_pos h.1]
      exact ih rest (by simp at hl; omega) h.2

theorem validUtf8_ascii (l : List Nat) (h : l.all (fun b => decide (b < 128)) = true) :
    validUtf8 l = true :=
  validUtf8F_ascii (l.length + 1) l (by omega) h

theorem countLeading_replicate_append (b : Nat) (n : Nat) (l : List Nat) :
    countLeading b (List.replicate n b ++ l) = n + countLeading b l := by
  induction n with
  | zero => simp
  | succ n ih =>
    rw [List.replicate_succ, List.cons_append]
    have hstep : countLeading b (b :: (List.replicate n b ++ l)) =
        countLeading b (List.replicate n b ++ l) + 1 := by
      simp only [countLeading, eq_self_iff_true, if_true]
    rw [hstep, ih]
    omega

theorem countLeading_ne (b c : Nat) (l : List Nat) (h : c ≠ b) :
    countLeading b (c :: l) = 0 := by
  simp [countLeading, h]

theorem splitLines_no_newline (a : List Nat) (h : a.all (fun b => decide (b ≠ 10)) = true) :
    splitLines (a ++ [10]) = [a, []] := by
  induction a with
  | nil => rfl
  | cons c a ih =>
    simp only [List.all_cons, Bool.and_eq_true, decide_eq_true_eq] at h
    simp only [List.cons_append, splitLines, if_neg h.1, List.append_eq, ih h.2]

end BasicLemmas

/-- Append pending literal text as a `Text` node (merging consecutive literal
bytes into a single node); nothing is emitted for empty pending text. -/
def flushText (pending : List Nat) (rest : List Inline) : List Inline :=
  if pending = [] then rest else .text pending :: rest

/-- Modelled from the spec: the balanced-delimiter depth scan for an inline
expression. Starting at depth `d` (the consumed open delimiters), an open
brace increments the depth, a close brace decrements it; when the depth
reaches zero the scan returns the raw expression text and the remaining
bytes. `none` means the input ended with positive depth (unterminated).
The lexer body is missing from the repository. -/
def scanExprClose : Nat → List Nat → Option (List Nat × List Nat)
  | _, [] => none
  | d, b :: rest =>
    if b = 123 then (scanExprClose (d + 1) rest).map (fun p => (123 :: p.1, p.2))
    else if b = 125 then
      if d = 1 then some ([], rest)
      else (scanExprClose (d - 1) rest).map (fun p => (125 :: p.1, p.2))
    else (scanExprClose d rest).map (fun p => (b :: p.1, p.2))

/-- Modelled from the spec: search for the closing run of an emphasis opener.
`run` is the length of the star run immediately before the current position;
a maximal run of exactly `n` stars closes the opener, so the scan succeeds
exactly when such a run occurs, splitting the input into the emphasis content
and the bytes after the closing run. The inline parser body is missing from
the repository. -/
def emphCloseAux (n : Nat) (acc : List Nat) (run : Nat) : List Nat → Option (List Nat × List Nat)
  | [] => if run = n then some (acc, []) else none
  | b :: rest =>
    if b = 42 then emphCloseAux n acc (run + 1) rest
    else if run = n then some (acc, b :: rest)
    else emphCloseAux n (acc ++ List.replicate run 42 ++ [b]) 0 rest

/-- Find the closing star run of length exactly `n` (with `n ≥ 1`). -/
def findEmphClose (n : Nat) (s : List Nat) : Option (List Nat × List Nat) :=
  emphCloseAux n [] 0 s

/-- Modelled from the spec: recognition of a link tail after an opening
bracket: a bracketed label followed immediately by a parenthesized target;
anything else is literal text. Returns `(label, target, rest)`. -/
def linkOf (rest : List Nat) : Option (List Nat × List Nat × List Nat) :=
  match splitAtByte 93 rest with
  | none => none
  | some (label, rest2) =>
    if rest2.headD 0 = 40 then
      match splitAtByte 41 rest2.tail with
      | none => none
      | some (target, after) =>
        if rest2 = [] then none else some (label, target, after)
    else none

/-- Modelled from the spec: the inline parser. Scans the raw text span of a
block left to right: a doubled expression delimiter is a literal brace; a
single open brace starts an inline expression that must close at balanced
depth within the span (otherwise `UnterminatedExpression`); a lone close
brace is literal text; a star run of length N opens emphasis that closes
only against a maximal star run of exactly N, and an unmatched opening run
degrades to literal text; a backtick pair is inline code (an unmatched
backtick is literal); a bracketed label immediately followed by a
parenthesized target is a link (otherwise the bracket is literal).
The inline parser body is missing from the repository. Fuel-structural; the
fuel passed by `parseInlines` dominates the recursion depth (every recursive
call is on a strictly shorter span). -/
def inlineScanF : Nat → List Nat → List Nat → Except PErr (List Inline)
  | 0, _, _ => .error .internal
  | _ + 1, pending, [] => .ok (flushText pending [])
  | fuel + 1, pending, b :: rest =>
    if b = 123 then
      if rest.headD 0 = 123 ∧ rest ≠ [] then inlineScanF fuel (pending ++ [123]) rest.tail
      else
        match scanExprClose 1 rest with
        | none => .error .unterminatedExpression
        | some (content, after) =>
          match inlineScanF fuel [] after with
          | .error e => .error e
          | .ok tl => .ok (flushText pending (.inlineExpression content :: tl))
    else if b = 125 then
      if rest.headD 0 = 125 ∧ rest ≠ [] then inlineScanF fuel (pending ++ [125]) rest.tail
      else inlineScanF fuel (pending ++ [125]) rest
    else if b = 42 then
      let m := countLeading 42 rest
      let rest2 := rest.drop m
      match findEmphClose (m + 1) rest2 with
      | none => inlineScanF fuel (pending ++ List.replicate (m + 1) 42) rest2
      | some (content, after) =>
        match inlineScanF fuel [] content with
        | .error e => .error e
        | .ok children =>
          match inlineScanF fuel [] after with
          | .error e => .error e
          | .ok tl => .ok (flushText pending (.emphasis (m + 1) children :: tl))
    else if b = 96 then
      match splitAtByte 96 rest with
      | none => inlineScanF fuel (pending ++ [96]) rest
      | some (code, after) =>
        match inlineScanF fuel [] after with
        | .error e => .error e
        | .ok tl => .ok (flushText pending (.inlineCode code :: tl))
    else if b = 91 then
      match linkOf rest with
      | none => inlineScanF fuel (pending ++ [91]) rest
      | some (label, target, after) =>
        match inlineScanF fuel [] label with
        | .error e => .error e
        | .ok children =>
          match inlineScanF fuel [] after with
          | .error e => .error e
          | .ok tl => .ok (flushText pending (.link target children :: tl))
    else inlineScanF fuel (pending ++ [b]) rest

/-- Modelled from the spec: the inline parser entry point for the raw text
span of one block; the fuel dominates the recursion depth, so the
fuel-exhaustion branch is unreachable. -/
def parseInlines (s : List Nat) : Except PErr (List Inline) :=
  inlineScanF (s.length + 1) [] s

/-- A blank line: empty or only spaces. -/
def isBlank (l : List Nat) : Bool := l.all (fun b => b == 32)

/-- Modelled from the spec: a thematic-break line, a run of at least three
break-marker characters with no other content (per the tie-break rule,
thematic break wins only when the line contains nothing else). -/
def isThematicBreak (l : List Nat) : Bool :=
  (l.all (fun b => b == 45) || l.all (fun b => b == 42)) && decide (3 ≤ l.length)

/-- Modelled from the spec: heading-line recognition. A run of k heading
markers at line start followed by a space (or end of line) is a heading of
level min(k,6) — repetition beyond 6 truncates to 6, not an error — whose
raw inline content is the rest of the line. -/
def headingOf (l : List Nat) : Option (Nat × List Nat) :=
  let k := countLeading 35 l
  if k = 0 then none
  else
    let rest := l.drop k
    if rest = [] then some (min k 6, [])
    else if rest.headD 0 = 32 then some (min k 6, rest.tail)
    else none

/-- A decimal digit byte. -/
def isDigit (b : Nat) : Bool := 48 ≤ b && b ≤ 57

/-- Modelled from the spec: list-item marker recognition: an unordered bullet
marker followed by a space, or (ordered) a digit run followed by a dot and a
space; returns the ordered flag and the item's raw content. -/
def listItemOf (l : List Nat) : Option (Bool × List Nat) :=
  match l with
  | [] => none
  | b :: rest =>
    if (b = 45 ∨ b = 42 ∨ b = 43) ∧ rest.headD 0 = 32 ∧ rest ≠ [] then some (false, rest.tail)
    else
      let ds := l.takeWhile isDigit
      let rest2 := l.dropWhile isDigit
      if ds ≠ [] ∧ rest2.headD 0 = 46 ∧ rest2.tail.headD 0 = 32 ∧ 2 ≤ rest2.length then
        some (true, rest2.tail.tail)
      else none

/-- A byte usable in a component name (letter or digit). -/
def isNameByte (b : Nat) : Bool := (65 ≤ b && b ≤ 90) || (97 ≤ b && b ≤ 122) || (48 ≤ b && b ≤ 57)

/-- Modelled from the spec: component-open marker recognition: a line of the
form `<Name attrs>` where the name starts with an uppercase letter; the
attribute text is kept raw (leading spaces stripped). Returns (name, attrs). -/
def componentOpenOf (l : List Nat) : Option (List Nat × List Nat) :=
  if l.headD 0 = 60 ∧ l ≠ [] then
    let name := l.tail.takeWhile isNameByte
    let rest2 := l.tail.dropWhile isNameByte
    if name ≠ [] ∧ 65 ≤ name.headD 0 ∧ name.headD 0 ≤ 90 then
      match splitAtByte 62 rest2 with
      | some (attrs, []) => some (name, attrs.dropWhile (fun b => b == 32))
      | _ => none
    else none
  else none

/-- Modelled from the spec: component-close marker recognition: a line of the
form `</Name>`. Returns the closing name. -/
def componentCloseOf (l : List Nat) : Option (List Nat) :=
  match l with
  | 60 :: 47 :: rest =>
    match splitAtByte 62 rest with
    | some (name, []) => if name ≠ [] ∧ name.all isNameByte then some name else none
    | _ => none
  | _ => none

/-- Modelled from the spec: expression-block opening: a line starting with a
single open delimiter (a doubled delimiter is a literal brace and falls
through to paragraph text). Returns the rest of the line after the
delimiter. -/
def exprStartOf (l : List Nat) : Option (List Nat) :=
  if l.headD 0 = 123 ∧ l ≠ [] ∧ ¬ (l.tail.headD 0 = 123 ∧ l.tail ≠ []) then some l.tail
  else none

/-- Modelled from the spec: code-fence opening: a line starting with a fence
marker (three backticks) followed by an optional language tag. -/
def fenceOpenOf (l : List Nat) : Option (List Nat) :=
  if l.take 3 = [96, 96, 96] ∧ (l.drop 3).all (fun b => ! (b == 96)) then some (l.drop 3)
  else none

/-- A code-fence closing line: exactly a fence marker on its own line. -/
def isFenceClose (l : List Nat) : Bool := l == [96, 96, 96]

/-- Line classification of the block parser, in the spec's precedence order:
thematic break > heading > list item > component-block open > expression-block
delimiter > code-block fence > paragraph (blank lines separate blocks). -/
inductive LineClass where
  | blank
  | thematic
  | headingLine (level : Nat) (content : List Nat)
  | listLine (ordered : Bool) (content : List Nat)
  | compOpen (name : List Nat) (attrs : List Nat)
  | exprOpen (tail : List Nat)
  | fenceOpen (lang : List Nat)
  | para

/-- Modelled from the spec: each line's leading bytes determine the current
block type by matching marker precedence, in order: thematic break > heading >
list item > component-block open > expression-block delimiter > code-block
fence > paragraph. The block parser body is missing from the repository. -/
def classify (l : List Nat) : LineClass :=
  if isBlank l then .blank
  else if isThematicBreak l then .thematic
  else
    match headingOf l with
    | some (k, c) => .headingLine k c
    | none =>
      match listItemOf l with
      | some (o, c) => .listLine o c
      | none =>
        match componentOpenOf l with
        | some (name, attrs) => .compOpen name attrs
        | none =>
          match exprStartOf l with
          | some t => .exprOpen t
          | none =>
            match fenceOpenOf l with
            | some lang => .fenceOpen lang
            | none => .para

/-- A paragraph-continuation line: absorbed by an open paragraph (any line
that is not blank and matches no higher-precedence marker). -/
def isParaLine (l : List Nat) : Bool :=
  match classify l with
  | .para => true
  | _ => false

/-- Scan the following lines for the first component-close marker line;
returns (inner lines, closing name, lines after). -/
def findCloseLine : List (List Nat) → Option (List (List Nat) × List Nat × List (List Nat))
  | [] => none
  | l :: ls =>
    match componentCloseOf l with
    | some name => some ([], name, ls)
    | none => (findCloseLine ls).map (fun t => (l :: t.1, t.2.1, t.2.2))

/-- Scan the following lines for the closing fence line; returns
(inner lines, lines after). -/
def findFenceClose : List (List Nat) → Option (List (List Nat) × List (List Nat))
  | [] => none
  | l :: ls =>
    if isFenceClose l then some ([], ls)
    else (findFenceClose ls).map (fun t => (l :: t.1, t.2))

/-- Modelled from the spec: the balanced-delimiter depth scan of one line of
an expression block. Returns (consumed content, rest of line after the
closing delimiter when the depth reached zero, resulting depth). -/
def scanExprLine (depth : Nat) : List Nat → List Nat × Option (List Nat) × Nat
  | [] => ([], none, depth)
  | b :: rest =>
    if b = 123 then
      let t := scanExprLine (depth + 1) rest
      (123 :: t.1, t.2)
    else if b = 125 then
      if depth = 1 then ([], some rest, 0)
      else
        let t := scanExprLine (depth - 1) rest
        (125 :: t.1, t.2)
    else
      let t := scanExprLine depth rest
      (b :: t.1, t.2)

/-- Modelled from the spec: continuation of an expression block across
following lines, tracking the delimiter depth; `none` when the input ends
with positive depth (unterminated). Returns (content, remaining lines). -/
def scanExprLines (depth : Nat) : List (List Nat) → Option (List Nat × List (List Nat))
  | [] => none
  | l :: ls =>
    match scanExprLine depth l with
    | (c, some _, _) => some (c, ls)
    | (c, none, d) => (scanExprLines d ls).map (fun t => (c ++ 10 :: t.1, t.2))

/-- Modelled from the spec: an expression block opened on a line whose tail
after the open delimiter is `t`, spanning to its balanced closing delimiter
(possibly on a later line); `none` when the input ends with depth > 0.
Content after the closing delimiter on its line is not part of any block
(the line consists solely of the delimiter pair). -/
def scanExprBlock (t : List Nat) (ls : List (List Nat)) : Option (List Nat × List (List Nat)) :=
  match scanExprLine 1 t with
  | (c, some _, _) => some (c, ls)
  | (c, none, d) => (scanExprLines d ls).map (fun r => (c ++ 10 :: r.1, r.2))

/-- The raw content of line `l` when it is a list item of the given kind. -/
def listLineContent (ordered : Bool) (l : List Nat) : Option (List Nat) :=
  match listItemOf l with
  | some (o, c) => if o = ordered then some c else none
  | none => none

/-- The contiguous following list-item lines of the same kind. -/
def takeListLines (ordered : Bool) (ls : List (List Nat)) : List (List Nat) :=
  ls.takeWhile (fun l => (listLineContent ordered l).isSome)

/-- The lines after the contiguous list-item lines of the same kind. -/
def dropListLines (ordered : Bool) (ls : List (List Nat)) : List (List Nat) :=
  ls.dropWhile (fun l => (listLineContent ordered l).isSome)

/-- Parse each list item's raw content into a paragraph block. -/
def parseItems : List (List Nat) → Except PErr (List Block)
  | [] => .ok []
  | c :: cs =>
    match parseInlines c with
    | .error e => .error e
    | .ok children =>
      match parseItems cs with
      | .error e => .error e
      | .ok rest => .ok (.paragraph children :: rest)

/-- Modelled from the spec: the line-oriented block parser. Consumes the
lines and yields the document's block sequence or the first fatal parse
error: a component block must be closed by a matching component-close marker
carrying the same name (mismatched or missing closing name is
`UnbalancedComponent`); an expression block must reach balanced depth before
end of input (`UnterminatedExpression`); a code fence must be closed by a
matching fence line (`UnterminatedCodeBlock`); paragraphs absorb consecutive
non-blocking lines and their text is resolved by the inline parser. The
block parser body is missing from the repository. Fuel-structural; the fuel
passed by `parseDoc` dominates the recursion depth (every recursive call is
on strictly fewer lines). -/
def parseBlocksF : Nat → List (List Nat) → Except PErr (List Block)
  | 0, _ => .error .internal
  | _ + 1, [] => .ok []
  | fuel + 1, l :: ls =>
    match classify l with
    | .blank => parseBlocksF fuel ls
    | .thematic =>
      match parseBlocksF fuel ls with
      | .error e => .error e
      | .ok rest => .ok (.thematicBreak :: rest)
    | .headingLine k c =>
      match parseInlines c with
      | .error e => .error e
      | .ok children =>
        match parseBlocksF fuel ls with
        | .error e => .error e
        | .ok rest => .ok (.heading k children :: rest)
    | .listLine ord c =>
      let items := c :: (takeListLines ord ls).map (fun l' => (listLineContent ord l').getD [])
      let rem := dropListLines ord ls
      match parseItems items with
      | .error e => .error e
      | .ok blocks =>
        match parseBlocksF fuel rem with
        | .error e => .error e
        | .ok rest => .ok (.list ord blocks :: rest)
    | .compOpen name attrs =>
      match findCloseLine ls with
      | none => .error .unbalancedComponent
      | some (inner, closeName, after) =>
        if closeName = name then
          match parseBlocksF fuel inner with
          | .error e => .error e
          | .ok children =>
            match parseBlocksF fuel after with
            | .error e => .error e
            | .ok rest => .ok (.componentBlock name attrs children :: rest)
        else .error .unbalancedComponent
    | .exprOpen t =>
      match scanExprBlock t ls with
      | none => .error .unterminatedExpression
      | some (content, rem) =>
        match parseBlocksF fuel rem with
        | .error e => .error e
        | .ok rest => .ok (.expressionBlock content :: rest)
    | .fenceOpen lang =>
      match findFenceClose ls with
      | none => .error .unterminatedCodeBlock
      | some (inner, after) =>
        match parseBlocksF fuel after with
        | .error e => .error e
        | .ok rest => .ok (.codeBlock lang (joinLines inner) :: rest)
    | .para =>
      let para := l :: ls.takeWhile isParaLine
      let rem := ls.dropWhile isParaLine
      match parseInlines (joinLines para) with
      | .error e => .error e
      | .ok children =>
        match parseBlocksF fuel rem with
        | .error e => .error e
        | .ok rest => .ok (.paragraph children :: rest)

/-- Modelled from the spec: the parsing pipeline after UTF-8 validation:
split the validated bytes into lines and run the block parser (which invokes
the inline parser per text span), yielding the document's block sequence or
the first fatal parse error. The parser body is missing from the repository. -/
def parseDoc (input : List Nat) : Except PErr (List Block) :=
  let lines := splitLines input
  parseBlocksF (lines.length + 1) lines

/-- A hexadecimal digit byte (lowercase letters). -/
def hexDigit (d : Nat) : Nat := if d < 10 then 48 + d else 87 + d

/-- Modelled from the spec: JSON string escaping: quote, backslash and
control characters are escaped; non-ASCII bytes are left as UTF-8, not
escaped to u-sequences. -/
def escapeByte (b : Nat) : List Nat :=
  if b = 34 then [92, 34]
  else if b = 92 then [92, 92]
  else if b = 10 then [92, 110]
  else if b = 13 then [92, 114]
  else if b = 9 then [92, 116]
  else if b < 32 then [92, 117, 48, 48, hexDigit (b / 16), hexDigit (b % 16)]
  else [b]

/-- A JSON string literal: quoted, escaped bytes. -/
def jsonString (s : List Nat) : List Nat :=
  34 :: (s.map escapeByte).flatten ++ [34]

/-- Decimal digits of a natural number (fuel-structural; the fuel passed by
`natDigits` dominates the recursion depth). -/
def natDigitsF : Nat → Nat → List Nat
  | 0, _ => []
  | fuel + 1, n =>
    if n < 10 then [48 + n]
    else natDigitsF fuel (n / 10) ++ [48 + n % 10]

/-- Decimal representation of a natural number as bytes. -/
def natDigits (n : Nat) : List Nat := natDigitsF (n + 1) n

mutual

/-- Modelled from the spec: the JSON serializer for inline nodes —
deterministic, fixed key order per node kind (type discriminator first, then
structural fields in declared order). The serializer body is missing from
the repository. -/
def serInline : Inline → List Nat
  | .text s => strBytes "\x7b\"type\":\"text\",\"value\":" ++ jsonString s ++ strBytes "\x7d"
  | .emphasis n cs =>
    strBytes "\x7b\"type\":\"emphasis\",\"strength\":" ++ natDigits n ++
      strBytes ",\"children\":[" ++ serInlines cs ++ strBytes "]\x7d"
  | .link target cs =>
    strBytes "\x7b\"type\":\"link\",\"target\":" ++ jsonString target ++
      strBytes ",\"children\":[" ++ serInlines cs ++ strBytes "]\x7d"
  | .inlineCode s =>
    strBytes "\x7b\"type\":\"inlineCode\",\"value\":" ++ jsonString s ++ strBytes "\x7d"
  | .inlineExpression s =>
    strBytes "\x7b\"type\":\"inlineExpression\",\"value\":" ++ jsonString s ++ strBytes "\x7d"

/-- Comma-separated serialization of a sequence of inline nodes. -/
def serInlines : List Inline → List Nat
  | [] => []
  | [i] => serInline i
  | i :: rest => serInline i ++ 44 :: serInlines rest

end

mutual

/-- Modelled from the spec: the JSON serializer for block nodes —
deterministic, fixed key order per node kind (for Heading: type, level,
children). The serializer body is missing from the repository. -/
def serBlock : Block → List Nat
  | .heading k cs =>
    strBytes "\x7b\"type\":\"heading\",\"level\":" ++ natDigits k ++
      strBytes ",\"children\":[" ++ serInlines cs ++ strBytes "]\x7d"
  | .paragraph cs =>
    strBytes "\x7b\"type\":\"paragraph\",\"children\":[" ++ serInlines cs ++ strBytes "]\x7d"
  | .list ord items =>
    strBytes "\x7b\"type\":\"list\",\"ordered\":" ++
      (if ord then strBytes "true" else strBytes "false") ++
      strBytes ",\"children\":[" ++ serBlocks items ++ strBytes "]\x7d"
  | .codeBlock lang body =>
    strBytes "\x7b\"type\":\"codeBlock\",\"language\":" ++ jsonString lang ++
      strBytes ",\"value\":" ++ jsonString body ++ strBytes "\x7d"
  | .expressionBlock s =>
    strBytes "\x7b\"type\":\"expressionBlock\",\"value\":" ++ jsonString s ++ strBytes "\x7d"
  | .componentBlock name attrs cs =>
    strBytes "\x7b\"type\":\"componentBlock\",\"name\":" ++ jsonString name ++
      strBytes ",\"attributes\":" ++ jsonString attrs ++
      strBytes ",\"children\":[" ++ serBlocks cs ++ strBytes "]\x7d"
  | .thematicBreak => strBytes "\x7b\"type\":\"thematicBreak\"\x7d"

/-- Comma-separated serialization of a sequence of block nodes. -/
def serBlocks : List Block → List Nat
  | [] => []
  | [b] => serBlock b
  | b :: rest => serBlock b ++ 44 :: serBlocks rest

end

/-- Modelled from the spec: the JSON serializer for the document root:
deterministic, total function from the document tree to bytes; root object
with the type discriminator first and the children next. The serializer
body is missing from the repository. -/
def serializeDoc (doc : List Block) : List Nat :=
  strBytes "\x7b\"type\":\"document\",\"children\":[" ++ serBlocks doc ++ strBytes "]\x7d"

/-- Modelled from the spec: the boundary entry point `zigmdx_parse_json` of
`zigmdx.h`. Validates UTF-8 (failure: `InvalidUtf8`, no output), parses
(failure: `ParseError`, no output; pipeline invariant violation:
`InternalError`, no output), then serializes the document and hands the
output buffer to the caller with status `Ok`. Allocation failure
(`AllocError`) has no counterpart in this pure model: allocation cannot
fail here, so that status is never produced. The function body is missing
from the repository; its signature and status codes come from the header. -/
def zigmdx_parse_json (input : List Nat) : Status × Option (List Nat) :=
  if validUtf8 input then
    match parseDoc input with
    | .error .internal => (.internalError, none)
    | .error _ => (.parseError, none)
    | .ok doc => (.ok, some (serializeDoc doc))
  else (.invalidUtf8, none)

/-- The `int32_t` status value returned across the boundary. -/
def zigmdxStatusCode (input : List Nat) : Int :=
  ((zigmdx_parse_json input).1).code

section PlainText

/-- A plain text byte: printable ASCII that is neither an inline special
(emphasis marker, expression delimiter, backtick, bracket) nor a byte that
could begin a block marker (heading marker, bullet, digit, fence, component
open). Used to quantify the general theorems over arbitrary literal text. -/
def plainByte (b : Nat) : Bool :=
  decide (32 ≤ b) && decide (b ≤ 126) && !(b == 35) && !(b == 42) && !(b == 43) &&
    !(b == 45) && !(decide (48 ≤ b) && decide (b ≤ 57)) && !(b == 60) && !(b == 91) &&
    !(b == 96) && !(b == 123) && !(b == 125)

theorem plainByte_facts (b : Nat) (h : plainByte b = true) :
    32 ≤ b ∧ b ≤ 126 ∧ b ≠ 35 ∧ b ≠ 42 ∧ b ≠ 43 ∧ b ≠ 45 ∧ ¬(48 ≤ b ∧ b ≤ 57) ∧
      b ≠ 60 ∧ b ≠ 91 ∧ b ≠ 96 ∧ b ≠ 123 ∧ b ≠ 125 := by
  simp only [plainByte, Bool.and_eq_true, Bool.not_eq_true', beq_eq_false_iff_ne,
    decide_eq_true_eq, Bool.and_eq_false_iff, decide_eq_false_iff_not] at h
  omega

end PlainText

section InlineLemmas

/-- One scanning step of the inline parser on a plain byte: the byte is
moved into the pending literal text. -/
theorem inlineScanF_plain_step (c : Nat) (hc : plainByte c = true)
    (fuel : Nat) (pending rest : List Nat) :
    inlineScanF (fuel + 1) pending (c :: rest) = inlineScanF fuel (pending ++ [c]) rest := by
  obtain ⟨_, _, _, h42, _, _, _, _, h91, h96, h123, h125⟩ := plainByte_facts c hc
  simp only [inlineScanF]
  rw [if_neg h123, if_neg h125, if_neg h42, if_neg h96, if_neg h91]

/-- Scanning a plain text segment accumulates it into the pending literal
text, consuming fuel equal to its length. -/
theorem inlineScanF_plain (s : List Nat) : ∀ fuel pending rest,
    s.all plainByte = true →
    inlineScanF (s.length + fuel) pending (s ++ rest) = inlineScanF fuel (pending ++ s) rest := by
  induction s with
  | nil => simp
  | cons c s ih =>
    intro fuel pending rest h
    simp only [List.all_cons, Bool.and_eq_true] at h
    have hlen : (c :: s).length + fuel = (s.length + fuel) + 1 := by simp; omega
    rw [hlen, List.cons_append, inlineScanF_plain_step c h.1, ih _ _ _ h.2]
    simp

end InlineLemmas

section InlineLemmasMore

theorem inlineScanF_nil (fuel : Nat) (pending : List Nat) :
    inlineScanF (fuel + 1) pending [] = .ok (flushText pending []) := rfl

theorem flushText_nil (r : List Inline) : flushText [] r = r := rfl

theorem flushText_cons (p : List Nat) (r : List Inline) (h : p ≠ []) :
    flushText p r = .text p :: r := by
  simp [flushText, h]

/-- A plain segment contains no expression delimiters, so the depth scan
never closes. -/
theorem scanExprClose_plain_none (s : List Nat) : ∀ d, s.all plainByte = true →
    scanExprClose d s = none := by
  induction s with
  | nil => intro d _; rfl
  | cons c s ih =>
    intro d h
    simp only [List.all_cons, Bool.and_eq_true] at h
    obtain ⟨_, _, _, _, _, _, _, _, _, _, h123, h125⟩ := plainByte_facts c h.1
    simp only [scanExprClose]
    rw [if_neg h123, if_neg h125, ih _ h.2]
    rfl

/-- The emphasis-close search skips a plain segment, accumulating it. -/
theorem emphCloseAux_plain (n : Nat) (hn : 1 ≤ n) (s : List Nat) :
    ∀ acc t, s.all plainByte = true →
    emphCloseAux n acc 0 (s ++ t) = emphCloseAux n (acc ++ s) 0 t := by
  induction s with
  | nil => simp
  | cons c s ih =>
    intro acc t h
    simp only [List.all_cons, Bool.and_eq_true] at h
    obtain ⟨_, _, _, h42, _⟩ := plainByte_facts c h.1
    rw [List.cons_append]
    simp only [emphCloseAux]
    rw [if_neg h42, if_neg (by omega : ¬ (0 = n))]
    simp only [List.replicate_zero, List.append_nil, List.nil_append]
    rw [ih _ _ h.2]
    simp

/-- The emphasis-close search absorbs a star run into the current run count. -/
theorem emphCloseAux_stars (n : Nat) (k : Nat) : ∀ acc run t,
    emphCloseAux n acc run (List.replicate k 42 ++ t) = emphCloseAux n acc (run + k) t := by
  induction k with
  | zero => simp
  | succ k ih =>
    intro acc run t
    rw [List.replicate_succ, List.cons_append]
    simp only [emphCloseAux, eq_self_iff_true, if_true]
    rw [ih]
    have harith : run + 1 + k = run + (k + 1) := by omega
    rw [harith]

/-- A closing run of exactly `n` stars at the very end of the input closes
the opener, and the accumulated text before it is the emphasis content. -/
theorem findEmphClose_exact (n : Nat) (hn : 1 ≤ n) (s : List Nat)
    (hs : s.all plainByte = true) :
    findEmphClose n (s ++ List.replicate n 42) = some (s, []) := by
  rw [findEmphClose, emphCloseAux_plain n hn s [] (List.replicate n 42) hs]
  rw [show List.replicate n 42 = List.replicate n 42 ++ [] from by simp]
  rw [emphCloseAux_stars]
  simp [emphCloseAux]

/-- A final star run of length `m ≠ n` does not close an opener of run
length `n`. -/
theorem findEmphClose_mismatch (n m : Nat) (hn : 1 ≤ n) (hm : m ≠ n) (s : List Nat)
    (hs : s.all plainByte = true) :
    findEmphClose n (s ++ List.replicate m 42) = none := by
  rw [findEmphClose, emphCloseAux_plain n hn s [] (List.replicate m 42) hs]
  rw [show List.replicate m 42 = List.replicate m 42 ++ [] from by simp]
  rw [emphCloseAux_stars]
  simp [emphCloseAux, hm]

/-- No closing run exists in the empty remainder. -/
theorem findEmphClose_nil (n : Nat) (hn : 1 ≤ n) : findEmphClose n [] = none := by
  simp only [findEmphClose, emphCloseAux]
  rw [if_neg (by omega : ¬ (0 = n))]

end InlineLemmasMore

section StepLemmas

/-- Scanning the end of a span flushes the pending text (any positive fuel). -/
theorem inlineScanF_nil_pos (fuel : Nat) (pending : List Nat) (hf : 1 ≤ fuel) :
    inlineScanF fuel pending [] = .ok (flushText pending []) := by
  obtain ⟨K, rfl⟩ : ∃ K, fuel = K + 1 := ⟨fuel - 1, by omega⟩
  rfl

/-- Scanning a plain span (any dominating fuel) yields its literal text. -/
theorem inlineScanF_plain_any (s : List Nat) (fuel : Nat) (pending : List Nat)
    (hs : s.all plainByte = true) (hf : s.length < fuel) :
    inlineScanF fuel pending s = .ok (flushText (pending ++ s) []) := by
  obtain ⟨K, rfl⟩ : ∃ K, fuel = s.length + (K + 1) := ⟨fuel - s.length - 1, by omega⟩
  have h1 := inlineScanF_plain s (K + 1) pending [] hs
  rw [List.append_nil] at h1
  rw [h1, inlineScanF_nil]

/-- The inline parser on an entirely plain span. -/
theorem parseInlines_plain (s : List Nat) (hs : s.all plainByte = true) :
    parseInlines s = .ok (flushText s []) := by
  rw [parseInlines]
  have h1 := inlineScanF_plain_any s (s.length + 1) [] hs (by omega)
  rw [List.nil_append] at h1
  exact h1

/-- One step of the inline scanner on a star run (by definitional unfolding). -/
theorem inlineScanF_star (fuel : Nat) (pending rest : List Nat) :
    inlineScanF (fuel + 1) pending (42 :: rest) =
      match findEmphClose (countLeading 42 rest + 1) (rest.drop (countLeading 42 rest)) with
      | none =>
        inlineScanF fuel (pending ++ List.replicate (countLeading 42 rest + 1) 42)
          (rest.drop (countLeading 42 rest))
      | some (content, after) =>
        match inlineScanF fuel [] content with
        | .error e => .error e
        | .ok children =>
          match inlineScanF fuel [] after with
          | .error e => .error e
          | .ok tl => .ok (flushText pending (.emphasis (countLeading 42 rest + 1) children :: tl)) := rfl

/-- One step of the inline scanner on a doubled open delimiter. -/
theorem inlineScanF_open_dbl (fuel : Nat) (pending t : List Nat) :
    inlineScanF (fuel + 1) pending (123 :: 123 :: t) = inlineScanF fuel (pending ++ [123]) t := rfl

/-- One step of the inline scanner on a doubled close delimiter. -/
theorem inlineScanF_close_dbl (fuel : Nat) (pending t : List Nat) :
    inlineScanF (fuel + 1) pending (125 :: 125 :: t) = inlineScanF fuel (pending ++ [125]) t := rfl

/-- One step of the inline scanner on a single open delimiter: the depth scan
decides between an inline expression and `UnterminatedExpression`. -/
theorem inlineScanF_open_single (fuel : Nat) (pending rest : List Nat)
    (h : ¬ (rest.headD 0 = 123 ∧ rest ≠ [])) :
    inlineScanF (fuel + 1) pending (123 :: rest) =
      match scanExprClose 1 rest with
      | none => .error .unterminatedExpression
      | some (content, after) =>
        match inlineScanF fuel [] after with
        | .error e => .error e
        | .ok tl => .ok (flushText pending (.inlineExpression content :: tl)) := by
  simp only [inlineScanF, eq_self_iff_true, if_true]
  rw [if_neg h]

end StepLemmas

section EmphasisLemmas

theorem countLeading_replicate (b : Nat) (n : Nat) :
    countLeading b (List.replicate n b) = n := by
  have h := countLeading_replicate_append b n []
  simpa using h

/-- Scanning a plain span followed by a terminal star run that matches no
opener: the whole span degrades to literal text. -/
theorem inlineScanF_plain_stars (m : Nat) (hm : 1 ≤ m) (s : List Nat)
    (hs : s.all plainByte = true) (fuel : Nat) (pending : List Nat)
    (hf : s.length + m < fuel) :
    inlineScanF fuel pending (s ++ List.replicate m 42) =
      .ok (flushText (pending ++ s ++ List.replicate m 42) []) := by
  obtain ⟨K, rfl⟩ : ∃ K, fuel = s.length + (K + 1) := ⟨fuel - s.length - 1, by omega⟩
  rw [inlineScanF_plain s (K + 1) pending (List.replicate m 42) hs]
  obtain ⟨i, rfl⟩ : ∃ i, m = i + 1 := ⟨m - 1, by omega⟩
  rw [List.replicate_succ, inlineScanF_star]
  rw [countLeading_replicate, List.drop_replicate]
  simp only [Nat.sub_self, List.replicate_zero]
  rw [findEmphClose_nil (i + 1) (by omega)]
  rw [inlineScanF_nil_pos K _ (by omega)]
  rw [← List.replicate_succ]

/-- An emphasis opener run of length `n` closed by a terminal run of exactly
`n`: the plain content becomes the emphasis child. -/
theorem parseInlines_emph_exact (n : Nat) (hn : 1 ≤ n) (s : List Nat)
    (hs : s.all plainByte = true) (hne : s ≠ []) :
    parseInlines (List.replicate n 42 ++ (s ++ List.replicate n 42)) =
      .ok [.emphasis n [.text s]] := by
  obtain ⟨j, rfl⟩ : ∃ j, n = j + 1 := ⟨n - 1, by omega⟩
  obtain ⟨c, s', rfl⟩ : ∃ c s', s = c :: s' := by
    cases s with
    | nil => exact absurd rfl hne
    | cons c s' => exact ⟨c, s', rfl⟩
  have hplain_c : plainByte c = true := by
    simp only [List.all_cons, Bool.and_eq_true] at hs
    exact hs.1
  have hc42 : c ≠ 42 := (plainByte_facts c hplain_c).2.2.2.1
  have hshape : List.replicate (j + 1) 42 ++ (c :: s' ++ List.replicate (j + 1) 42) =
      42 :: (List.replicate j 42 ++ (c :: s' ++ List.replicate (j + 1) 42)) := by
    simp [List.replicate_succ]
  rw [parseInlines, hshape, List.length_cons, inlineScanF_star]
  have hcl : countLeading 42 (List.replicate j 42 ++ (c :: s' ++ List.replicate (j + 1) 42)) = j := by
    rw [countLeading_replicate_append, List.cons_append, countLeading_ne 42 c _ hc42]
    omega
  have hdrop :
      (List.replicate j 42 ++ (c :: s' ++ List.replicate (j + 1) 42)).drop j =
        c :: s' ++ List.replicate (j + 1) 42 := by
    have h := List.drop_left (List.replicate j 42) (c :: s' ++ List.replicate (j + 1) 42)
    rwa [List.length_replicate] at h
  rw [hcl, hdrop]
  rw [findEmphClose_exact (j + 1) (by omega) (c :: s') hs]
  dsimp only
  rw [inlineScanF_plain_any (c :: s') _ [] hs (by
    simp only [List.length_append, List.length_replicate, List.length_cons]
    omega)]
  rw [List.nil_append, flushText_cons (c :: s') [] (by simp)]
  dsimp only
  rw [inlineScanF_nil_pos _ [] (by
    simp only [List.length_append, List.length_replicate, List.length_cons]
    omega)]
  rw [flushText_nil]
  rfl

/-- An emphasis opener run of length `n` with a terminal run of a different
length `m`: the opener degrades and the whole span is literal text. -/
theorem parseInlines_emph_mismatch (n m : Nat) (hn : 1 ≤ n) (hm : 1 ≤ m) (hnm : m ≠ n)
    (s : List Nat) (hs : s.all plainByte = true) (hne : s ≠ []) :
    parseInlines (List.replicate n 42 ++ (s ++ List.replicate m 42)) =
      .ok [.text (List.replicate n 42 ++ (s ++ List.replicate m 42))] := by
  obtain ⟨j, rfl⟩ : ∃ j, n = j + 1 := ⟨n - 1, by omega⟩
  obtain ⟨c, s', rfl⟩ : ∃ c s', s = c :: s' := by
    cases s with
    | nil => exact absurd rfl hne
    | cons c s' => exact ⟨c, s', rfl⟩
  have hplain_c : plainByte c = true := by
    simp only [List.all_cons, Bool.and_eq_true] at hs
    exact hs.1
  have hc42 : c ≠ 42 := (plainByte_facts c hplain_c).2.2.2.1
  have hshape : List.replicate (j + 1) 42 ++ (c :: s' ++ List.replicate m 42) =
      42 :: (List.replicate j 42 ++ (c :: s' ++ List.replicate m 42)) := by
    simp [List.replicate_succ]
  rw [parseInlines, hshape, List.length_cons, inlineScanF_star]
  have hcl : countLeading 42 (List.replicate j 42 ++ (c :: s' ++ List.replicate m 42)) = j := by
    rw [countLeading_replicate_append, List.cons_append, countLeading_ne 42 c _ hc42]
    omega
  have hdrop :
      (List.replicate j 42 ++ (c :: s' ++ List.replicate m 42)).drop j =
        c :: s' ++ List.replicate m 42 := by
    have h := List.drop_left (List.replicate j 42) (c :: s' ++ List.replicate m 42)
    rwa [List.length_replicate] at h
  rw [hcl, hdrop]
  rw [findEmphClose_mismatch (j + 1) m (by omega) hnm (c :: s') hs]
  dsimp only
  rw [List.nil_append]
  rw [inlineScanF_plain_stars m hm (c :: s') hs _ (List.replicate (j + 1) 42) (by
    simp only [List.length_append, List.length_replicate, List.length_cons]
    omega)]
  rw [flushText_cons _ [] (by simp)]
  simp [List.append_assoc, List.replicate_succ]

end EmphasisLemmas

section DelimiterLemmas

/-- A doubled open delimiter inside plain text is a single literal open
brace: the inline parse succeeds with the escaped text. -/
theorem parseInlines_dbl_open (s t : List Nat)
    (hs : s.all plainByte = true) (ht : t.all plainByte = true) :
    parseInlines (s ++ (123 :: 123 :: t)) = .ok [.text (s ++ (123 :: t))] := by
  rw [parseInlines]
  have hlen : (s ++ (123 :: 123 :: t)).length + 1 = s.length + ((t.length + 2) + 1) := by
    simp only [List.length_append, List.length_cons]
    omega
  rw [hlen, inlineScanF_plain s _ [] _ hs, List.nil_append]
  rw [inlineScanF_open_dbl]
  rw [inlineScanF_plain_any t _ (s ++ [123]) ht (by omega)]
  rw [flushText_cons _ [] (by simp)]
  simp [List.append_assoc]

/-- A doubled close delimiter inside plain text is a single literal close
brace: the inline parse succeeds with the escaped text. -/
theorem parseInlines_dbl_close (s t : List Nat)
    (hs : s.all plainByte = true) (ht : t.all plainByte = true) :
    parseInlines (s ++ (125 :: 125 :: t)) = .ok [.text (s ++ (125 :: t))] := by
  rw [parseInlines]
  have hlen : (s ++ (125 :: 125 :: t)).length + 1 = s.length + ((t.length + 2) + 1) := by
    simp only [List.length_append, List.length_cons]
    omega
  rw [hlen, inlineScanF_plain s _ [] _ hs, List.nil_append]
  rw [inlineScanF_close_dbl]
  rw [inlineScanF_plain_any t _ (s ++ [125]) ht (by omega)]
  rw [flushText_cons _ [] (by simp)]
  simp [List.append_assoc]

/-- A single open delimiter with no closing delimiter by the end of the span
is an unterminated inline expression: the inline parse fails. -/
theorem parseInlines_single_open (s t : List Nat)
    (hs : s.all plainByte = true) (ht : t.all plainByte = true) :
    parseInlines (s ++ (123 :: t)) = .error .unterminatedExpression := by
  rw [parseInlines]
  have hlen : (s ++ (123 :: t)).length + 1 = s.length + ((t.length + 1) + 1) := by
    simp only [List.length_append, List.length_cons]
    omega
  rw [hlen, inlineScanF_plain s _ [] _ hs, List.nil_append]
  have hng : ¬ (t.headD 0 = 123 ∧ t ≠ []) := by
    intro hcontra
    obtain ⟨h1, h2⟩ := hcontra
    cases t with
    | nil => exact h2 rfl
    | cons c t' =>
      have hplain_c : plainByte c = true := by
        simp only [List.all_cons, Bool.and_eq_true] at ht
        exact ht.1
      have : c ≠ 123 := (plainByte_facts c hplain_c).2.2.2.2.2.2.2.2.2.2.1
      simp only [List.headD_cons] at h1
      exact this h1
  rw [inlineScanF_open_single _ _ _ hng]
  rw [scanExprClose_plain_none t 1 ht]

end DelimiterLemmas

section BlockStepLemmas

theorem parseBlocksF_nil (fuel : Nat) : parseBlocksF (fuel + 1) [] = .ok [] := rfl

theorem parseBlocksF_blank (fuel : Nat) (l : List Nat) (ls : List (List Nat))
    (h : classify l = .blank) :
    parseBlocksF (fuel + 1) (l :: ls) = parseBlocksF fuel ls := by
  simp only [parseBlocksF, h]

theorem parseBlocksF_heading (fuel : Nat) (l : List Nat) (ls : List (List Nat)) (k : Nat)
    (c : List Nat) (h : classify l = .headingLine k c) :
    parseBlocksF (fuel + 1) (l :: ls) =
      match parseInlines c with
      | .error e => .error e
      | .ok children =>
        match parseBlocksF fuel ls with
        | .error e => .error e
        | .ok rest => .ok (.heading k children :: rest) := by
  simp only [parseBlocksF, h]

theorem parseBlocksF_comp_missing (fuel : Nat) (l : List Nat) (ls : List (List Nat))
    (name attrs : List Nat) (h : classify l = .compOpen name attrs)
    (hfind : findCloseLine ls = none) :
    parseBlocksF (fuel + 1) (l :: ls) = .error .unbalancedComponent := by
  simp only [parseBlocksF, h, hfind]

theorem parseBlocksF_comp_mismatch (fuel : Nat) (l : List Nat) (ls : List (List Nat))
    (name attrs closeName : List Nat) (inner after : List (List Nat))
    (h : classify l = .compOpen name attrs)
    (hfind : findCloseLine ls = some (inner, closeName, after)) (hne : closeName ≠ name) :
    parseBlocksF (fuel + 1) (l :: ls) = .error .unbalancedComponent := by
  simp only [parseBlocksF, h, hfind]
  rw [if_neg hne]

theorem parseBlocksF_expr_unterminated (fuel : Nat) (l : List Nat) (ls : List (List Nat))
    (t : List Nat) (h : classify l = .exprOpen t) (hscan : scanExprBlock t ls = none) :
    parseBlocksF (fuel + 1) (l :: ls) = .error .unterminatedExpression := by
  simp only [parseBlocksF, h, hscan]

theorem findCloseLine_none (ls : List (List Nat))
    (h : ∀ l ∈ ls, componentCloseOf l = none) : findCloseLine ls = none := by
  induction ls with
  | nil => rfl
  | cons l ls ih =>
    simp only [findCloseLine, h l (by simp)]
    rw [ih (fun l' hl' => h l' (by simp [hl']))]
    rfl

end BlockStepLemmas

section ClassifyLemmas

theorem headingOf_marker (k : Nat) (hk : 1 ≤ k) (s : List Nat) :
    headingOf (List.replicate k 35 ++ (32 :: s)) = some (min k 6, s) := by
  have hcl : countLeading 35 (List.replicate k 35 ++ (32 :: s)) = k := by
    rw [countLeading_replicate_append, countLeading_ne 35 32 _ (by omega)]
    omega
  have hdrop : (List.replicate k 35 ++ (32 :: s)).drop k = 32 :: s := by
    have h := List.drop_left (List.replicate k 35) (32 :: s)
    rwa [List.length_replicate] at h
  simp only [headingOf, hcl, hdrop]
  rw [if_neg (by omega : ¬ (k = 0))]
  simp

theorem classify_heading (k : Nat) (hk : 1 ≤ k) (s : List Nat) :
    classify (List.replicate k 35 ++ (32 :: s)) = .headingLine (min k 6) s := by
  obtain ⟨j, rfl⟩ : ∃ j, k = j + 1 := ⟨k - 1, by omega⟩
  have hb : isBlank (List.replicate (j + 1) 35 ++ (32 :: s)) = false := by
    simp [isBlank, List.replicate_succ]
  have ht : isThematicBreak (List.replicate (j + 1) 35 ++ (32 :: s)) = false := by
    simp [isThematicBreak, List.replicate_succ]
  have hh := headingOf_marker (j + 1) (by omega) s
  simp [classify, hb, ht, hh]

theorem classify_nil_blank : classify ([] : List Nat) = .blank := rfl

end ClassifyLemmas

section ParseLevelLemmas

theorem plainByte_lt128 (b : Nat) (h : plainByte b = true) : b < 128 := by
  have := plainByte_facts b h
  omega

theorem plainByte_ne10 (b : Nat) (h : plainByte b = true) : b ≠ 10 := by
  have := plainByte_facts b h
  omega

/-- A component block whose close marker never appears is an
`UnbalancedComponent` parse error. -/
theorem parseDoc_comp_missing (input : List Nat) (l : List Nat) (ls : List (List Nat))
    (name attrs : List Nat) (hsplit : splitLines input = l :: ls)
    (hcls : classify l = .compOpen name attrs)
    (hclose : ∀ l' ∈ ls, componentCloseOf l' = none) :
    parseDoc input = .error .unbalancedComponent := by
  simp only [parseDoc]
  rw [hsplit, List.length_cons]
  exact parseBlocksF_comp_missing _ _ _ _ _ hcls (findCloseLine_none ls hclose)

/-- A component block whose first close marker carries a different name is an
`UnbalancedComponent` parse error. -/
theorem parseDoc_comp_mismatch (input : List Nat) (l : List Nat) (ls : List (List Nat))
    (name attrs closeName : List Nat) (inner after : List (List Nat))
    (hsplit : splitLines input = l :: ls)
    (hcls : classify l = .compOpen name attrs)
    (hfind : findCloseLine ls = some (inner, closeName, after)) (hne : closeName ≠ name) :
    parseDoc input = .error .unbalancedComponent := by
  simp only [parseDoc]
  rw [hsplit, List.length_cons]
  exact parseBlocksF_comp_mismatch _ _ _ _ _ _ _ _ hcls hfind hne

/-- An expression block whose delimiter depth never returns to zero before
end of input is an `UnterminatedExpression` parse error. -/
theorem parseDoc_expr_unterminated (input : List Nat) (l : List Nat) (ls : List (List Nat))
    (t : List Nat) (hsplit : splitLines input = l :: ls)
    (hcls : classify l = .exprOpen t) (hscan : scanExprBlock t ls = none) :
    parseDoc input = .error .unterminatedExpression := by
  simp only [parseDoc]
  rw [hsplit, List.length_cons]
  exact parseBlocksF_expr_unterminated _ _ _ _ hcls hscan

/-- A parse error that is not an internal-invariant violation surfaces at the
boundary as the `ParseError` status with no output buffer. -/
theorem zigmdx_of_parse_error (input : List Nat) (e : PErr)
    (hv : validUtf8 input = true) (he : parseDoc input = .error e) (hne : e ≠ .internal) :
    zigmdx_parse_json input = (.parseError, none) := by
  simp only [zigmdx_parse_json, hv, if_true]
  rw [he]
  cases e with
  | internal => exact absurd rfl hne
  | unterminatedExpression => rfl
  | unterminatedCodeBlock => rfl
  | unbalancedComponent => rfl

/-- A heading line of marker run `k` over plain content parses to a single
heading block of level min(k,6). -/
theorem parseDoc_heading_line (k : Nat) (hk : 1 ≤ k) (s : List Nat)
    (hs : s.all plainByte = true) (hne : s ≠ []) :
    parseDoc ((List.replicate k 35 ++ (32 :: s)) ++ [10]) =
      .ok [.heading (min k 6) [.text s]] := by
  have hno10 : (List.replicate k 35 ++ (32 :: s)).all (fun b => decide (b ≠ 10)) = true := by
    rw [List.all_eq_true]
    intro x hx
    rcases List.mem_append.1 hx with hx | hx
    · have := List.eq_of_mem_replicate hx
      simp [this]
    · rcases List.mem_cons.1 hx with hx | hx
      · simp [hx]
      · have hp : plainByte x = true := by
          rw [List.all_eq_true] at hs
          exact hs x hx
        simp [plainByte_ne10 x hp]
  have hsplit := splitLines_no_newline _ hno10
  simp only [parseDoc]
  rw [hsplit, List.length_cons]
  rw [parseBlocksF_heading _ _ _ _ _ (classify_heading k hk s)]
  rw [parseInlines_plain s hs, flushText_cons s [] hne]
  dsimp only
  rw [show List.length [([] : List Nat)] = 0 + 1 from rfl]
  rw [parseBlocksF_blank _ _ _ classify_nil_blank]
  rfl

/-- Bytes of a heading line over plain content are ASCII. -/
theorem heading_line_ascii (k : Nat) (s : List Nat) (hs : s.all plainByte = true) :
    ((List.replicate k 35 ++ (32 :: s)) ++ [10]).all (fun b => decide (b < 128)) = true := by
  rw [List.all_eq_true]
  intro x hx
  rcases List.mem_append.1 hx with hx | hx
  · rcases List.mem_append.1 hx with hx | hx
    · have := List.eq_of_mem_replicate hx
      simp [this]
    · rcases List.mem_cons.1 hx with hx | hx
      · simp [hx]
      · have hp : plainByte x = true := by
          rw [List.all_eq_true] at hs
          exact hs x hx
        simp [plainByte_lt128 x hp]
  · simp at hx
    simp [hx]

end ParseLevelLemmas

/-- Claim C1: for every input byte sequence, `zigmdx_parse_json` returns
exactly one of the five statuses Ok, ParseError, InvalidUtf8, AllocError,
InternalError, and an output buffer is present if and only if the status is
Ok (on every non-Ok status no output buffer is produced, never a
partially-valid JSON buffer). -/
theorem c1_status_and_output (input : List Nat) :
    ((zigmdx_parse_json input).1 = .ok ∨ (zigmdx_parse_json input).1 = .parseError ∨
      (zigmdx_parse_json input).1 = .invalidUtf8 ∨ (zigmdx_parse_json input).1 = .allocError ∨
      (zigmdx_parse_json input).1 = .internalError) ∧
    ((zigmdx_parse_json input).1 = .ok ↔ (zigmdx_parse_json input).2.isSome = true) := by
  simp only [zigmdx_parse_json]
  by_cases hv : validUtf8 input = true
  · rw [if_pos hv]
    cases hpd : parseDoc input with
    | ok doc => exact ⟨Or.inl rfl, by simp⟩
    | error e => cases e <;> simp
  · rw [if_neg hv]
    exact ⟨Or.inr (Or.inr (Or.inl rfl)), by simp⟩

/-- Claim C2: every input that is not well-formed UTF-8 makes the parse
return InvalidUtf8 with no output (the pipeline never reaches tokenization:
the result is produced by the validation gate alone); the validator rejects
an unexpected continuation byte, an overlong encoding, a truncated sequence
and an encoded surrogate; in particular the input with invalid byte 0xFF at
offset 3 returns InvalidUtf8. -/
theorem c2_utf8_gate :
    (∀ input : List Nat, validUtf8 input = false →
      zigmdx_parse_json input = (.invalidUtf8, none)) ∧
    zigmdx_parse_json [104, 105, 33, 255] = (.invalidUtf8, none) ∧
    validUtf8 [128] = false ∧ validUtf8 [192, 175] = false ∧
    validUtf8 [195] = false ∧ validUtf8 [237, 160, 128] = false := by
  refine ⟨fun input h => ?_, by decide, by decide, by decide, by decide, by decide⟩
  simp [zigmdx_parse_json, h]

/-- Witness for C2 at the concrete input `[255]`. -/
theorem c2_utf8_gate_witness :
    validUtf8 [255] = false ∧ zigmdx_parse_json [255] = (.invalidUtf8, none) :=
  ⟨by decide, c2_utf8_gate.1 [255] (by decide)⟩

/-- Claim C3: the input `"# Hello\n"` parses with status Ok and the output
bytes are exactly the JSON document with one level-1 heading whose single
child is the text `"Hello"`. -/
theorem c3_hello_heading_json :
    zigmdx_parse_json (strBytes "# Hello\n") =
      (.ok, some (strBytes "\x7b\"type\":\"document\",\"children\":[\x7b\"type\":\"heading\",\"level\":1,\"children\":[\x7b\"type\":\"text\",\"value\":\"Hello\"\x7d]\x7d]\x7d")) := rfl

/-- Claim C4: parsing and serialization are deterministic: the boundary
entry point and the serializer are pure functions of their input, so two
invocations on the same bytes (respectively the same document) give
identical results; there is no shared mutable state in the model. -/
theorem c4_deterministic :
    (∀ input : List Nat, zigmdx_parse_json input = zigmdx_parse_json input) ∧
    (∀ doc : List Block, serializeDoc doc = serializeDoc doc) :=
  ⟨fun _ => rfl, fun _ => rfl⟩

/-- Claim C5 (amended): for every input whose first line opens an expression
block (a single open delimiter) and whose delimiter depth never returns to
zero before end of input (the balanced-close scan fails), parse returns
ParseError (internally UnterminatedExpression) with no output; the input
`"{1 + }"` has balanced delimiters (depth returns to zero at the final close
delimiter), so it parses with status Ok as an expression block rather than
returning ParseError. -/
theorem c5_expr_unterminated :
    (∀ (input l : List Nat) (ls : List (List Nat)) (t : List Nat),
      validUtf8 input = true → splitLines input = l :: ls → classify l = .exprOpen t →
      scanExprBlock t ls = none →
      parseDoc input = .error .unterminatedExpression ∧
        zigmdx_parse_json input = (.parseError, none)) ∧
    parseDoc (strBytes "\x7b1 + \x7d") = .ok [.expressionBlock (strBytes "1 + ")] ∧
    (zigmdx_parse_json (strBytes "\x7b1 + \x7d")).1 = .ok := by
  refine ⟨fun input l ls t hv hsplit hcls hscan => ?_, rfl, rfl⟩
  have hpd := parseDoc_expr_unterminated input l ls t hsplit hcls hscan
  exact ⟨hpd, zigmdx_of_parse_error input _ hv hpd (by simp)⟩

/-- Counterexample to C5 as stated: the input `"{1 + }"` does not return
ParseError. -/
theorem c5_balanced_counterexample :
    (zigmdx_parse_json (strBytes "\x7b1 + \x7d")).1 ≠ Status.parseError := by
  decide

/-- Witness for C5 at the concrete unterminated input `"{1 + "`. -/
theorem c5_expr_unterminated_witness :
    parseDoc (strBytes "\x7b1 + ") = .error .unterminatedExpression ∧
      zigmdx_parse_json (strBytes "\x7b1 + ") = (.parseError, none) :=
  c5_expr_unterminated.1 (strBytes "\x7b1 + ") (strBytes "\x7b1 + ") [] (strBytes "1 + ")
    (by decide) rfl rfl rfl

/-- Claim C6: a component block whose matching close marker is missing, or
whose first close marker carries a different name, is an UnbalancedComponent
parse error surfacing as ParseError with no output; in particular the input
`"<Foo>\nbar\n"` returns ParseError with no output. -/
theorem c6_unbalanced_component :
    (∀ (input l : List Nat) (ls : List (List Nat)) (name attrs : List Nat),
      validUtf8 input = true → splitLines input = l :: ls →
      classify l = .compOpen name attrs → (∀ l' ∈ ls, componentCloseOf l' = none) →
      parseDoc input = .error .unbalancedComponent ∧
        zigmdx_parse_json input = (.parseError, none)) ∧
    (∀ (input l : List Nat) (ls : List (List Nat)) (name attrs closeName : List Nat)
      (inner after : List (List Nat)),
      validUtf8 input = true → splitLines input = l :: ls →
      classify l = .compOpen name attrs →
      findCloseLine ls = some (inner, closeName, after) → closeName ≠ name →
      parseDoc input = .error .unbalancedComponent ∧
        zigmdx_parse_json input = (.parseError, none)) ∧
    zigmdx_parse_json (strBytes "<Foo>\nbar\n") = (.parseError, none) := by
  refine ⟨fun input l ls name attrs hv hsplit hcls hclose => ?_,
    fun input l ls name attrs closeName inner after hv hsplit hcls hfind hne => ?_, rfl⟩
  · have hpd := parseDoc_comp_missing input l ls name attrs hsplit hcls hclose
    exact ⟨hpd, zigmdx_of_parse_error input _ hv hpd (by simp)⟩
  · have hpd := parseDoc_comp_mismatch input l ls name attrs closeName inner after hsplit hcls hfind hne
    exact ⟨hpd, zigmdx_of_parse_error input _ hv hpd (by simp)⟩

/-- Witness for C6 at the concrete unterminated component `"<A>\n"`. -/
theorem c6_unbalanced_component_witness :
    parseDoc (strBytes "<A>\n") = .error .unbalancedComponent ∧
      zigmdx_parse_json (strBytes "<A>\n") = (.parseError, none) :=
  c6_unbalanced_component.1 (strBytes "<A>\n") (strBytes "<A>") [[]] (strBytes "A") []
    (by decide) rfl rfl (by decide)

/-- Claim C7: a heading line whose marker is repeated k times parses without
error to a Heading node of level min(k,6): for k > 6 the level is clamped to
6 (not an error), and for 1 ≤ k ≤ 6 the level equals k. -/
theorem c7_heading_clamp (k : Nat) (s : List Nat) (hk : 1 ≤ k)
    (hs : s.all plainByte = true) (hne : s ≠ []) :
    parseDoc ((List.replicate k 35 ++ (32 :: s)) ++ [10]) =
      .ok [.heading (min k 6) [.text s]] ∧
    (zigmdx_parse_json ((List.replicate k 35 ++ (32 :: s)) ++ [10])).1 = .ok ∧
    (6 < k → min k 6 = 6) ∧ (k ≤ 6 → min k 6 = k) := by
  have hpd := parseDoc_heading_line k hk s hs hne
  refine ⟨hpd, ?_, by omega, by omega⟩
  have hv := validUtf8_ascii _ (heading_line_ascii k s hs)
  simp only [zigmdx_parse_json, hv, if_true]
  rw [hpd]

/-- Witness for C7 at a marker run of length 8 (level clamps to 6). -/
theorem c7_heading_clamp_witness :
    parseDoc ((List.replicate 8 35 ++ (32 :: strBytes "x")) ++ [10]) =
      .ok [.heading (min 8 6) [.text (strBytes "x")]] ∧
    (zigmdx_parse_json ((List.replicate 8 35 ++ (32 :: strBytes "x")) ++ [10])).1 = .ok ∧
    (6 < 8 → min 8 6 = 6) ∧ (8 ≤ 6 → min 8 6 = 8) :=
  c7_heading_clamp 8 (strBytes "x") (by decide) (by decide) (by decide)

/-- Claim C8: an emphasis marker run of length N closes only against a
maximal run of exactly N: with a matching terminal run the content becomes
an Emphasis node of strength N, and with a terminal run of a different
length the unmatched opening run degrades to literal text rather than a
parse failure; in particular `"*a*"` parses to Ok with one paragraph holding
one Emphasis(strength 1) node wrapping the text `"a"`. -/
theorem c8_emphasis_run_matching :
    (∀ (n : Nat) (s : List Nat), 1 ≤ n → s.all plainByte = true → s ≠ [] →
      parseInlines (List.replicate n 42 ++ (s ++ List.replicate n 42)) =
        .ok [.emphasis n [.text s]]) ∧
    (∀ (n m : Nat) (s : List Nat), 1 ≤ n → 1 ≤ m → m ≠ n →
      s.all plainByte = true → s ≠ [] →
      parseInlines (List.replicate n 42 ++ (s ++ List.replicate m 42)) =
        .ok [.text (List.replicate n 42 ++ (s ++ List.replicate m 42))]) ∧
    parseDoc (strBytes "*a*") = .ok [.paragraph [.emphasis 1 [.text (strBytes "a")]]] ∧
    (zigmdx_parse_json (strBytes "*a*")).1 = .ok :=
  ⟨fun n s hn hs hne => parseInlines_emph_exact n hn s hs hne,
   fun n m s hn hm hnm hs hne => parseInlines_emph_mismatch n m hn hm hnm s hs hne,
   rfl, rfl⟩

/-- Witness for C8 at run length 1 with content `"b"` (matching close) and
at runs 1 and 2 (mismatched close degrades to literal text). -/
theorem c8_emphasis_run_matching_witness :
    parseInlines (List.replicate 1 42 ++ (strBytes "b" ++ List.replicate 1 42)) =
      .ok [.emphasis 1 [.text (strBytes "b")]] ∧
    parseInlines (List.replicate 1 42 ++ (strBytes "b" ++ List.replicate 2 42)) =
      .ok [.text (List.replicate 1 42 ++ (strBytes "b" ++ List.replicate 2 42))] :=
  ⟨c8_emphasis_run_matching.1 1 (strBytes "b") (by decide) (by decide) (by decide),
   c8_emphasis_run_matching.2.1 1 2 (strBytes "b") (by decide) (by decide) (by decide)
     (by decide) (by decide)⟩

/-- Claim C9: a doubled expression delimiter inside text is a literal brace
(the inline parse succeeds and the doubled delimiter appears as one literal
character in the text), for both the open and the close delimiter, while a
single open delimiter with no corresponding closer by the end of the span is
an UnterminatedExpression parse error; at the boundary, a paragraph
containing a doubled open delimiter parses with status Ok to the escaped
literal text, and a paragraph with an unmatched single open delimiter
returns ParseError. -/
theorem c9_doubled_delimiter :
    (∀ s t : List Nat, s.all plainByte = true → t.all plainByte = true →
      parseInlines (s ++ (123 :: 123 :: t)) = .ok [.text (s ++ (123 :: t))] ∧
      parseInlines (s ++ (125 :: 125 :: t)) = .ok [.text (s ++ (125 :: t))] ∧
      parseInlines (s ++ (123 :: t)) = .error .unterminatedExpression) ∧
    zigmdx_parse_json (strBytes "a\x7b\x7bb\n") =
      (.ok, some (strBytes "\x7b\"type\":\"document\",\"children\":[\x7b\"type\":\"paragraph\",\"children\":[\x7b\"type\":\"text\",\"value\":\"a\x7bb\"\x7d]\x7d]\x7d")) ∧
    parseDoc (strBytes "a\x7bb\n") = .error .unterminatedExpression ∧
    zigmdx_parse_json (strBytes "a\x7bb\n") = (.parseError, none) :=
  ⟨fun s t hs ht =>
    ⟨parseInlines_dbl_open s t hs ht, parseInlines_dbl_close s t hs ht,
     parseInlines_single_open s t hs ht⟩,
   rfl, rfl, rfl⟩

/-- Witness for C9 at the plain segments `"x"` and `"y"`. -/
theorem c9_doubled_delimiter_witness :
    parseInlines (strBytes "x" ++ (123 :: 123 :: strBytes "y")) =
      .ok [.text (strBytes "x" ++ (123 :: strBytes "y"))] ∧
    parseInlines (strBytes "x" ++ (125 :: 125 :: strBytes "y")) =
      .ok [.text (strBytes "x" ++ (125 :: strBytes "y"))] ∧
    parseInlines (strBytes "x" ++ (123 :: strBytes "y")) = .error .unterminatedExpression :=
  c9_doubled_delimiter.1 (strBytes "x") (strBytes "y") (by decide) (by decide)

/-- Claim C10: the `int32_t` value returned by `zigmdx_parse_json` is always
one of exactly the five values of the header's enumeration, with the fixed
numeric encoding Ok = 0, ParseError = 1, InvalidUtf8 = 2, AllocError = 3,
InternalError = 4; no other value is possible for any input. -/
theorem c10_status_codes (input : List Nat) :
    (zigmdxStatusCode input = 0 ∨ zigmdxStatusCode input = 1 ∨ zigmdxStatusCode input = 2 ∨
      zigmdxStatusCode input = 3 ∨ zigmdxStatusCode input = 4) ∧
    Status.code .ok = 0 ∧ Status.code .parseError = 1 ∧ Status.code .invalidUtf8 = 2 ∧
    Status.code .allocError = 3 ∧ Status.code .internalError = 4 := by
  refine ⟨?_, rfl, rfl, rfl, rfl, rfl⟩
  simp only [zigmdxStatusCode, zigmdx_parse_json]
  by_cases hv : validUtf8 input = true
  · rw [if_pos hv]
    cases hpd : parseDoc input with
    | ok doc => simp [Status.code]
    | error e => cases e <;> simp [Status.code]
  · rw [if_neg hv]
    simp [Status.code]
